/- Verification of the SmartLecturer core against its specification.
   Shallow embedding of app/services/gemini_client.py and
   app/services/pdf_processor.py: timestamps and page geometry are rational
   numbers, Python strings are lists of characters, Python `int(...)`
   truncation is `pyint`, and the external generation service / text-box
   renderer are oracle parameters. -/
import Mathlib

/-- Python `int(q)` on a float/rational: truncation toward zero.  Written via
`num / den` so that for nonnegative arguments every integer-division
convention agrees. -/
def pyint (q : ℚ) : ℤ := if q < 0 then -((-q).num / ((-q).den : ℤ)) else q.num / (q.den : ℤ)

theorem pyint_eq_floor (q : ℚ) (h : 0 ≤ q) : pyint q = ⌊q⌋ := by
  unfold pyint
  rw [if_neg (not_lt.mpr h), Rat.floor_def]

theorem pyint_le (q : ℚ) (h : 0 ≤ q) : (pyint q : ℚ) ≤ q := by
  rw [pyint_eq_floor q h]
  exact Int.floor_le q

theorem pyint_nonneg (q : ℚ) (h : 0 ≤ q) : 0 ≤ pyint q := by
  rw [pyint_eq_floor q h]
  exact Int.floor_nonneg.mpr h

/-! ### RateLimiter (gemini_client.py lines 14-51)

`RateLimiter.wait_for_slot` keeps three sliding-window counters.  A granted
acquire is one step `waitForSlotStep`: prune all three counters at the
current time, evaluate the three predicates, and on success append one
request timestamp, one (timestamp, tokens) pair and one daily timestamp.
A failed check makes the Python loop sleep and re-check; a whole sequence
of granted acquires is `runGrants`. -/

/-- `now - t < window`: the entry at time `t` is still inside the trailing
window at time `now` (the list-comprehension predicate on lines 29-32). -/
def inWindow (window now t : ℚ) : Bool := decide (now - t < window)

structure RLState where
  req_timestamps : List ℚ
  used_tokens : List (ℚ × ℕ)
  daily_requests : List ℚ
deriving Repr, DecidableEq

/-- `__post_init__`: all three counters start empty. -/
def initRLState : RLState := ⟨[], [], []⟩

/-- Lines 36-38: drop entries older than `window_seconds` (86400 s for the
daily counter) at time `now`. -/
def pruneState (window : ℚ) (st : RLState) (now : ℚ) : RLState :=
  { req_timestamps := st.req_timestamps.filter (fun t => inWindow window now t),
    used_tokens := st.used_tokens.filter (fun e => inWindow window now e.1),
    daily_requests := st.daily_requests.filter (fun t => inWindow 86400 now t) }

/-- Lines 40-43: the three admission predicates `req_ok`, `tpm_ok`, `rpd_ok`. -/
def slotOk (max_rpm max_tpm max_rpd : ℕ) (st : RLState) (est : ℕ) : Bool :=
  let req_ok := decide (st.req_timestamps.length < max_rpm)
  let tokens_used := (st.used_tokens.map Prod.snd).sum
  let tpm_ok := decide (tokens_used + est ≤ max_tpm)
  let rpd_ok := decide (st.daily_requests.length < max_rpd)
  req_ok && tpm_ok && rpd_ok

/-- Lines 49-51: record exactly one request timestamp, one
(timestamp, est_tokens) pair and one daily timestamp. -/
def recordGrant (st : RLState) (now : ℚ) (est : ℕ) : RLState :=
  { req_timestamps := st.req_timestamps ++ [now],
    used_tokens := st.used_tokens ++ [(now, est)],
    daily_requests := st.daily_requests ++ [now] }

/-- One check of the `while True` loop at time `now`: prune, test, and on
success record the grant; `none` models "sleep 0.25 s and re-check". -/
def waitForSlotStep (max_rpm max_tpm max_rpd : ℕ) (window : ℚ) (st : RLState)
    (now : ℚ) (est : ℕ) : Option RLState :=
  let st1 := pruneState window st now
  if slotOk max_rpm max_tpm max_rpd st1 est then some (recordGrant st1 now est) else none

/-- A sequence of granted `wait_for_slot` calls, each at its own time with its
own token estimate.  `none` when some call in the sequence is never granted. -/
def runGrants (max_rpm max_tpm max_rpd : ℕ) (window : ℚ) :
    RLState → List (ℚ × ℕ) → Option RLState
  | st, [] => some st
  | st, (now, est) :: rest =>
    match waitForSlotStep max_rpm max_tpm max_rpd window st now est with
    | some st' => runGrants max_rpm max_tpm max_rpd window st' rest
    | none => none

/-- `estimate_tokens` (gemini_client.py lines 54-56): `max(256, n // 2 + 200)`. -/
def estimateTokens (chinese_chars : ℕ) : ℕ := max 256 (chinese_chars / 2 + 200)

/-! ### AnnotationClient retry loop (gemini_client.py lines 84-97)

The external generation service is an oracle `service : ℕ → Except ε _`
giving the outcome of the (n+1)-st invocation; `jitter n` is the value of
`random.uniform(0, 0.5)` drawn before the n-th sleep.  The function returns
the result, the number of service invocations made, and the list of
inter-attempt sleep durations. -/

/-- Python `str.strip()` / the `\s`-ish character class: ASCII whitespace
(space, tab, newline, carriage return, vertical tab, form feed). -/
def isSpaceChar (c : Char) : Bool :=
  c = ' ' || c = '\t' || c = '\n' || c = '\r' || c = Char.ofNat 11 || c = Char.ofNat 12

/-- Python `str.strip()`: drop whitespace from both ends. -/
def pyStrip (s : List Char) : List Char :=
  ((s.dropWhile isSpaceChar).reverse.dropWhile isSpaceChar).reverse

/-- The `for attempt in range(5)` body of `explain_page`, entered at a given
`attempt` and current `delay`: on success return `text.strip()`; on failure
re-raise when `attempt >= 4`, otherwise sleep `delay + jitter` and retry with
`delay * 1.5`. -/
def explainAttempt {ε : Type} (service : ℕ → Except ε (List Char)) (jitter : ℕ → ℚ)
    (attempt : ℕ) (delay : ℚ) : Except ε (List Char) × ℕ × List ℚ :=
  match service attempt with
  | .ok t => (.ok (pyStrip t), 1, [])
  | .error e =>
    if 4 ≤ attempt then (.error e, 1, [])
    else
      let r := explainAttempt service jitter (attempt + 1) (delay * (3/2))
      (r.1, r.2.1 + 1, (delay + jitter attempt) :: r.2.2)
termination_by 5 - attempt
decreasing_by omega

/-- `explain_page`'s retry loop from the top: `backoff = 1.5; delay = 1.0;
for attempt in range(5): ...`. -/
def explainPage {ε : Type} (service : ℕ → Except ε (List Char)) (jitter : ℕ → ℚ) :
    Except ε (List Char) × ℕ × List ℚ :=
  explainAttempt service jitter 0 1

/-! ### Blank-explanation predicate (pdf_processor.py lines 17-24, 62-63)

`_BLANK_RE` is the character class of whitespace plus a fixed set of
ASCII/CJK punctuation and decorative characters; `re.sub` with a `+`-run
pattern deletes exactly the characters of the class. -/

/-- The punctuation/decorative characters of `_BLANK_RE` (the non-`\s`
members of the class).  Quote-like and bracket-like characters are written
by code point: 96 backtick, 94 caret, 39 apostrophe, 34 double quote,
123/125 braces, 92 backslash, 8216/8217/8220/8221 curly quotes. -/
def blankPunct : List Char :=
  [Char.ofNat 96, '~', '!', '@', '#', '$', '%', Char.ofNat 94, '&', '*', '(', ')',
   '-', '_', '=', '+', '[', ']', Char.ofNat 123, Char.ofNat 125, '|', ';', ':',
   Char.ofNat 39, Char.ofNat 34, ',', '.', '<', '>', '/', '?',
   '，', '。', '？', '！', '、', '·', '—', '【', '】', '（', '）', '《', '》',
   Char.ofNat 8220, Char.ofNat 8221, Char.ofNat 8216, Char.ofNat 8217, Char.ofNat 92]

/-- Membership in the `_BLANK_RE` class. -/
def isBlankChar (c : Char) : Bool := isSpaceChar c || blankPunct.contains c

/-- `is_blank_explanation(text, min_chars)`: `None` is blank; otherwise delete
every `_BLANK_RE` character, strip, and compare the remaining length with
`min_chars`. -/
def isBlankExplanation (text : Option (List Char)) (min_chars : ℕ) : Bool :=
  match text with
  | none => true
  | some s => decide ((pyStrip (s.filter (fun c => !isBlankChar c))).length < min_chars)

/-- `pages_with_blank_explanations(explanations, min_chars)`: the page indices
of map entries whose text is blank (only pages present in the map). -/
def pagesWithBlank (d : List (ℕ × List Char)) (min_chars : ℕ) : List ℕ :=
  (d.filter (fun kv => isBlankExplanation (some kv.2) min_chars)).map Prod.fst

/-! ### Column geometry and the text partition
(pdf_processor.py `_smart_text_layout` lines 66-131, `_compose_vector`
lines 140-296) -/

/-- A `fitz.Rect`. -/
structure Rect where
  x0 : ℚ
  y0 : ℚ
  x1 : ℚ
  y1 : ℚ
deriving Repr, DecidableEq

def Rect.width (r : Rect) : ℚ := r.x1 - r.x0
def Rect.height (r : Rect) : ℚ := r.y1 - r.y0

inductive RenderMode where
  | text
  | markdown
  | empty_right
deriving Repr, DecidableEq

/-- `estimate_text_capacity` inside `_smart_text_layout` (lines 93-98):
`int(chars_per_line * lines_per_rect * 0.9)` from the raw rect extent. -/
def estimateTextCapacity (font_size : ℕ) (line_spacing : ℚ) (rect : Rect) : ℤ :=
  let chars_per_line := max (pyint (rect.width / ((font_size : ℚ) * (3/5)))) 1
  let lines_per_rect := max (pyint (rect.height / ((font_size : ℚ) * max 1 line_spacing))) 1
  pyint ((chars_per_line : ℚ) * (lines_per_rect : ℚ) * (9/10))

/-- The separator list of `_smart_text_layout` line 118, in search order. -/
def sepList : List (List Char) :=
  [['，'], ['。'], ['；'], ['：'], [','], ['.'], [';'], [':'], ['\n', '\n'], ['\n'], [' ']]

/-- Python `hay.rfind(sub)`: the greatest start index of an occurrence of
`sub` in `hay`, or `-1`. -/
def rfindSub (hay sub : List Char) : ℤ :=
  (List.range (hay.length + 1)).foldl
    (fun acc i =>
      if i + sub.length ≤ hay.length ∧ (hay.drop i).take sub.length = sub then (i : ℤ) else acc)
    (-1)

/-- Lines 117-122: the split position inside the allocated chunk — the first
separator of `sepList` whose last occurrence lies beyond 70% of the
allocation wins; otherwise cut at the raw boundary `alloc`. -/
def splitPos (allocText : List Char) (alloc : ℕ) : ℕ :=
  match sepList.find? (fun sep => decide ((alloc : ℚ) * (7/10) < (rfindSub allocText sep : ℚ))) with
  | some sep => (rfindSub allocText sep).toNat + 1
  | none => alloc

/-- The `for idx, capacity in enumerate(column_capacities)` loop of
`_smart_text_layout` (lines 105-126), with the loop state made explicit:
returns the per-column assignments together with the text remaining after
the loop.  An empty remainder breaks the loop (the untouched slots stay
empty); the final column absorbs the whole remainder. -/
def allocCols : List ℤ → List Char → ℤ → List (List Char) × List Char
  | [], rem, _ => ([], rem)
  | c :: cs, rem, total_capacity =>
    if rem.isEmpty then (List.replicate (cs.length + 1) [], rem)
    else if cs.isEmpty then ([rem], [])
    else
      let proportional := max (pyint ((rem.length : ℚ) * ((c : ℚ) / (total_capacity : ℚ)))) 1
      let alloc := min (max c proportional) (rem.length : ℤ)
      let allocText := rem.take alloc.toNat
      let split := splitPos allocText alloc.toNat
      let r := allocCols cs (rem.drop split) (max (total_capacity - c) 1)
      (rem.take split :: r.1, r.2)

/-- Line 129: `text_parts[-1] += remaining_text`. -/
def appendToLast : List (List Char) → List Char → List (List Char)
  | [], _ => []
  | [p], rem => [p ++ rem]
  | p :: ps, rem => p :: appendToLast ps rem

/-- `_smart_text_layout(text, column_rects, font_size, ...)`: empty-after-strip
text gets all-empty parts; short text (≤ 500 chars) goes wholly into the
first column; longer text is partitioned by `allocCols` over the estimated
column capacities, and any text remaining after the loop is appended to the
last part. -/
def smartTextLayout (text : List Char) (column_rects : List Rect)
    (font_size : ℕ) (line_spacing : ℚ) : List (List Char) :=
  if (pyStrip text).isEmpty then List.replicate column_rects.length []
  else if column_rects.isEmpty then []
  else if text.length ≤ 500 then text :: List.replicate (column_rects.length - 1) []
  else
    let column_capacities := column_rects.map (estimateTextCapacity font_size line_spacing)
    let r := allocCols column_capacities text (max column_capacities.sum 1)
    if r.2.isEmpty then r.1 else appendToLast r.1 r.2

/-! ### `_compose_vector` geometry (pdf_processor.py lines 140-296)

All page-layout quantities are computed from the (possibly
rotation-normalized) source page extent `w × h`, the font size, line
spacing, column padding and render mode, exactly as in the source; the
maximum column count is 3, column spacing 20, margins 25/40. -/

/-- `build_rects(count, top_offset)` (lines 199-215), with the enclosing
locals of `_compose_vector` (lines 154-197) recomputed from the inputs. -/
def buildRects (w h : ℚ) (font_size : ℕ) (line_spacing : ℚ) (column_padding : ℤ)
    (render_mode : RenderMode) (count : ℕ) (top_offset : ℚ) : List Rect :=
  let new_w : ℤ := pyint (w * 3)
  let new_h : ℚ := h
  let right_start : ℚ := w + 25
  let right_end : ℚ := (new_w : ℚ) - 25
  let available_width : ℚ := max (right_end - right_start) 1
  let line_height : ℚ := (font_size : ℚ) * max 1 line_spacing
  let bottom_core : ℤ := pyint (line_height * (5/4))
  let bottom_safe : ℚ := if render_mode = RenderMode.markdown
    then ((min (max 16 bottom_core) 36 : ℤ) : ℚ) else 0
  let column_internal_margin : ℚ :=
    ((max column_padding (pyint ((font_size : ℚ) * (21/20))) : ℤ) : ℚ)
  let column_width : ℚ := max 1 ((available_width - 20 * 2) / 3)
  let top : ℚ := 40 + top_offset
  let bottom0 : ℚ := new_h - 40 - bottom_safe - 2
  let bottom : ℚ := if bottom0 ≤ top then top + max line_height (font_size : ℚ) else bottom0
  (List.range count).map (fun idx =>
    let x_left : ℚ := right_start + (idx : ℚ) * (column_width + 20)
    let x_right : ℚ := x_left + column_width
    let x0 : ℚ := x_left + column_internal_margin
    let x1p : ℚ := min x_right right_end - column_internal_margin
    let x1 : ℚ := if x1p ≤ x0 then x0 + max ((font_size : ℚ) * (1/2)) 1 else x1p
    ⟨x0, top, x1, bottom⟩)

/-- `estimated_capacity(rects)` inside `_compose_vector` (lines 217-225):
like `estimate_text_capacity` but clamping the rect extent at 1 first. -/
def estimatedCapacityCompose (font_size : ℕ) (line_spacing : ℚ) (rects : List Rect) : ℤ :=
  (rects.map (fun rect =>
    let rect_width := max rect.width 1
    let rect_height := max rect.height 1
    let chars_per_line := max (pyint (rect_width / ((font_size : ℚ) * (3/5)))) 1
    let lines := max (pyint (rect_height / ((font_size : ℚ) * max 1 line_spacing))) 1
    pyint ((chars_per_line : ℚ) * (lines : ℚ) * (9/10)))).sum

/-- `effective_length = len(initial_text.strip()) or len(initial_text)`
(line 227): Python `or` falls through to the unstripped length when the
stripped length is zero. -/
def effectiveLength (text : List Char) : ℕ :=
  if (pyStrip text).length ≠ 0 then (pyStrip text).length else text.length

/-- The markdown fudge factor (line 232): 0.85 for markdown, else 1. -/
def fudgeFactor (render_mode : RenderMode) : ℚ :=
  if render_mode = RenderMode.markdown then 17/20 else 1

/-- Column-count selection (lines 228-235): the first `n ∈ {1,2,3}` whose
estimated capacity (times the fudge factor) covers the effective length,
defaulting to 3. -/
def columnCount (w h : ℚ) (font_size : ℕ) (line_spacing : ℚ) (column_padding : ℤ)
    (render_mode : RenderMode) (text : List Char) : ℕ :=
  let all_rects := buildRects w h font_size line_spacing column_padding render_mode 3 0
  match [1, 2, 3].find? (fun n =>
      decide ((effectiveLength text : ℚ) ≤
        (estimatedCapacityCompose font_size line_spacing (all_rects.take n) : ℚ) *
          fudgeFactor render_mode)) with
  | some n => n
  | none => 3

/-! ### Page rotation and composition (lines 144-159, 241-296, 414-427)

A PyMuPDF page carries an unrotated extent `w0 × h0` and a `rotation`
attribute that is a multiple of 90; `page.rect` reflects the rotation
(90/270 swap width and height), and `set_rotation` only changes the
attribute.  `insert_textbox`'s return value (how much text did not fit)
belongs to the external renderer, so it enters as an oracle giving the
`leftover_len` for each column. -/

structure Page where
  w0 : ℚ
  h0 : ℚ
  rotation : ℤ
deriving Repr, DecidableEq

/-- `page.rect.width` under the current rotation attribute. -/
def pageRectW (p : Page) : ℚ := if p.rotation % 180 = 0 then p.w0 else p.h0

/-- `page.rect.height` under the current rotation attribute. -/
def pageRectH (p : Page) : ℚ := if p.rotation % 180 = 0 then p.h0 else p.w0

/-- Python `text_part[-rc:]` guarded by `rc < len(text_part)`: the last `rc`
characters, except that `rc = 0` yields the whole list (Python `s[-0:]`
is `s[0:]`). -/
def pyTailSlice (l : List Char) (rc : ℕ) : List Char :=
  if rc = 0 then l else l.drop (l.length - rc)

/-- What `_compose_vector` produces for one source page: the embed-time
geometry and rotation, the source page's rotation after the call, the new
page extent, the per-column text assignments, the per-column leftovers
reported by the renderer oracle, and whether a continuation page was
created. -/
structure ComposedPage where
  embed_w : ℚ
  embed_h : ℚ
  embed_rotation : ℤ
  src_rotation_after : ℤ
  page_w : ℤ
  page_h : ℚ
  parts : List (List Char)
  leftovers : List (List Char)
  continuation : Bool
deriving Repr, DecidableEq

/-- `_compose_vector(dst, src, pno, ...)` for one page.  `oracle i` is the
value `insert_textbox` returns for column `i` (the plain-text path of lines
277-283); the markdown `insert_htmlbox` path reports no leftover.  Lines
144-159: a non-zero rotation is zeroed for the embed and restored after. -/
def composeVector (p : Page) (font_size : ℕ) (explanation : List Char)
    (render_mode : RenderMode) (line_spacing : ℚ) (column_padding : ℤ)
    (oracle : ℕ → ℚ) : ComposedPage :=
  let rotation := p.rotation
  let wh : ℚ × ℚ × ℤ × ℤ :=
    if rotation ≠ 0 then
      let p1 : Page := { p with rotation := 0 }
      (pageRectW p1, pageRectH p1, 0, rotation)
    else (pageRectW p, pageRectH p, rotation, rotation)
  let w := wh.1
  let h := wh.2.1
  let embedRot := wh.2.2.1
  let rotAfter := wh.2.2.2
  let new_w : ℤ := pyint (w * 3)
  let new_h : ℚ := h
  if render_mode = RenderMode.empty_right then
    ⟨w, h, embedRot, rotAfter, new_w, new_h, [], [], false⟩
  else
    let initial_text := explanation
    let cc := columnCount w h font_size line_spacing column_padding render_mode initial_text
    let column_rects :=
      (buildRects w h font_size line_spacing column_padding render_mode 3 0).take cc
    let parts := smartTextLayout initial_text column_rects font_size line_spacing
    let leftovers := parts.enum.map (fun ie =>
      let text_part := ie.2
      if (pyStrip text_part).isEmpty then []
      else if render_mode = RenderMode.markdown then []
      else
        let leftover_len := oracle ie.1
        if 0 < leftover_len then
          let remaining_chars := (pyint (leftover_len / ((font_size : ℚ) * (3/5)))).toNat
          if remaining_chars < text_part.length then pyTailSlice text_part remaining_chars
          else []
        else [])
    let has_overflow := leftovers.any (fun l => decide (0 < l.length))
    ⟨w, h, embedRot, rotAfter, new_w, new_h, parts, leftovers, has_overflow⟩

/-- Python `explanations.get(pno, "")` over an association list. -/
def dictGet? (d : List (ℕ × List Char)) (k : ℕ) : Option (List Char) :=
  (d.find? (fun kv => kv.1 == k)).map Prod.snd

/-- Python `explanations[pno] = expl`: update in place when the key exists,
else append (dict insertion-order semantics). -/
def dictSet (d : List (ℕ × List Char)) (k : ℕ) (v : List Char) : List (ℕ × List Char) :=
  if (d.find? (fun kv => kv.1 == k)).isSome
  then d.map (fun kv => if kv.1 == k then (k, v) else kv)
  else d ++ [(k, v)]

/-- `compose_pdf(src, explanations, ...)` (lines 414-427): one composed page
per source page, a missing map entry composing with the empty string.
`oracle pno i` is the renderer leftover report for page `pno`, column `i`. -/
def composePdf (pages : List Page) (explanations : List (ℕ × List Char))
    (font_size : ℕ) (render_mode : RenderMode) (line_spacing : ℚ) (column_padding : ℤ)
    (oracle : ℕ → ℕ → ℚ) : List ComposedPage :=
  pages.enum.map (fun ip =>
    let expl := (dictGet? explanations ip.1).getD []
    composeVector ip.2 font_size expl render_mode line_spacing column_padding (oracle ip.1))

/-! ### generate_explanations and the blank-retry passes (lines 314-411)

The per-page pipeline outcome (render, annotate, possible exception) is the
oracle `outcome pass pno : Option text` — `none` models `_process_one`
returning an error, `some t` a successful explanation `t`.  Pass 0 is the
initial pass; pass `k ≥ 1` is the k-th blank-retry pass. -/

/-- The merge of one retry pass's results into the map (lines 400-403):
only successes with non-empty text (Python truthiness) are written. -/
def mergeResults (retry_results : List (ℕ × Option (List Char)))
    (d : List (ℕ × List Char)) : List (ℕ × List Char) :=
  retry_results.foldl (fun acc pr =>
    match pr.2 with
    | some t => if t.isEmpty then acc else dictSet acc pr.1 t
    | none => acc) d

/-- The retry loop of lines 396-408: up to `fuel` passes over the current
blank set, merging successes whose text is non-empty, then recomputing the
still-blank set from the pass's own results; an empty blank set stops
early. -/
def retryRounds (outcome : ℕ → ℕ → Option (List Char)) (min_chars : ℕ) :
    ℕ → ℕ → List (ℕ × List Char) → List ℕ → List (ℕ × List Char)
  | 0, _, d, _ => d
  | fuel + 1, pass, d, blank_pages =>
    if blank_pages.isEmpty then d
    else
      let retry_results := blank_pages.map (fun pno => (pno, outcome pass pno))
      let d' := mergeResults retry_results d
      let blank' := (retry_results.filter (fun pr =>
        pr.2.isNone || isBlankExplanation pr.2 min_chars)).map Prod.fst
      retryRounds outcome min_chars fuel (pass + 1) d' blank'

/-- Insertion into a sorted list of page indices (structural helper for the
`results.sort(key=lambda x: x[0])` of line 378). -/
def insertSorted (x : ℕ) : List ℕ → List ℕ
  | [] => [x]
  | y :: ys => if x ≤ y then x :: y :: ys else y :: insertSorted x ys

/-- `results.sort(key=lambda x: x[0])` (line 378) on the page indices. -/
def sortPages (l : List ℕ) : List ℕ := l.foldr insertSorted []

/-- `generate_explanations` summarised to its explanation-map logic (lines
377-411): the initial pass fills the map from successful pages (the failure
list collects the rest), then, when enabled, the blank-retry phase runs on
the pages of the map whose text is blank. -/
def generateExplanations (outcome : ℕ → ℕ → Option (List Char)) (to_process : List ℕ)
    (retry_blank : Bool) (blank_min_chars blank_retry_times : ℕ) :
    List (ℕ × List Char) × List ℕ :=
  let sorted := sortPages to_process
  let explanations := sorted.foldl (fun acc pno =>
    match outcome 0 pno with
    | some t => dictSet acc pno t
    | none => acc) []
  let failed_pages := sorted.filter (fun pno => (outcome 0 pno).isNone)
  let final := if retry_blank && decide (0 < blank_retry_times)
    then retryRounds outcome blank_min_chars blank_retry_times 1 explanations
      (pagesWithBlank explanations blank_min_chars)
    else explanations
  (final, failed_pages)


/-- The state of the limiter after a sequence of grants, characterised
against the full grant history: each counter holds exactly the grants still
inside its window at the time of the latest prune. -/
def RLInv (window : ℚ) (grants : List (ℚ × ℕ)) (tcur : ℚ) (st : RLState) : Prop :=
  st.req_timestamps = (grants.map Prod.fst).filter (fun t => inWindow window tcur t)
  ∧ st.used_tokens = grants.filter (fun e => inWindow window tcur e.1)
  ∧ st.daily_requests = (grants.map Prod.fst).filter (fun t => inWindow 86400 tcur t)

/-- A concrete generation-service behaviour for the claim C3 witness: four
failures then a success. -/
def cexService : ℕ → Except Unit (List Char) :=
  fun n => if n < 4 then .error () else .ok ['a']

/-- Three equal 100 × 100 column rects used by the claim C5 witness and
counterexample (each estimates to 58 characters at 12 pt, spacing 1.4). -/
def cexRects3 : List Rect := [⟨0, 0, 100, 100⟩, ⟨0, 0, 100, 100⟩, ⟨0, 0, 100, 100⟩]

/-- Default element for indexing into a composed document (never selected
under the theorems' index bounds; its `continuation := true` keeps it from
trivially satisfying the conclusions). -/
def dummyComposed : ComposedPage := ⟨0, 0, 0, 0, 0, 0, [], [], true⟩

/-- The pipeline-outcome oracle of the claim C4 counterexample: every page
fails in the initial pass (pass 0) and succeeds with a long alphanumeric
text in any later pass. -/
def cexOutcome : ℕ → ℕ → Option (List Char) :=
  fun pass _ => if pass = 0 then none else some (List.replicate 11 'x')


/-! ### Helper lemmas -/

lemma explainAttempt_ok {ε : Type} {service : ℕ → Except ε (List Char)} {jitter : ℕ → ℚ}
    {attempt : ℕ} {delay : ℚ} {t : List Char} (h : service attempt = .ok t) :
    explainAttempt service jitter attempt delay = (.ok (pyStrip t), 1, []) := by
  rw [explainAttempt.eq_def, h]

lemma explainAttempt_error_last {ε : Type} {service : ℕ → Except ε (List Char)} {jitter : ℕ → ℚ}
    {attempt : ℕ} {delay : ℚ} {e : ε} (h : service attempt = .error e) (ha : 4 ≤ attempt) :
    explainAttempt service jitter attempt delay = (.error e, 1, []) := by
  rw [explainAttempt.eq_def, h]
  dsimp only
  rw [if_pos ha]

lemma explainAttempt_error_retry {ε : Type} {service : ℕ → Except ε (List Char)} {jitter : ℕ → ℚ}
    {attempt : ℕ} {delay : ℚ} {e : ε} (h : service attempt = .error e) (ha : attempt < 4) :
    explainAttempt service jitter attempt delay =
      ((explainAttempt service jitter (attempt + 1) (delay * (3/2))).1,
       (explainAttempt service jitter (attempt + 1) (delay * (3/2))).2.1 + 1,
       (delay + jitter attempt) :: (explainAttempt service jitter (attempt + 1) (delay * (3/2))).2.2) := by
  rw [explainAttempt.eq_def, h]
  dsimp only
  rw [if_neg (by omega : ¬ 4 ≤ attempt)]

lemma explainAttempt_calls_le {ε : Type} (service : ℕ → Except ε (List Char)) (jitter : ℕ → ℚ) :
    ∀ (k attempt : ℕ) (delay : ℚ), 5 - attempt ≤ k →
      (explainAttempt service jitter attempt delay).2.1 ≤ max 1 (5 - attempt) := by
  intro k
  induction k with
  | zero =>
    intro a d h
    cases hs : service a with
    | ok t => rw [explainAttempt_ok hs]; simp
    | error e => rw [explainAttempt_error_last hs (by omega)]; simp
  | succ k ih =>
    intro a d h
    cases hs : service a with
    | ok t => rw [explainAttempt_ok hs]; simp
    | error e =>
      by_cases ha : 4 ≤ a
      · rw [explainAttempt_error_last hs ha]; simp
      · rw [explainAttempt_error_retry hs (by omega)]
        have := ih (a + 1) (d * (3/2)) (by omega)
        simp only [] at this ⊢
        omega

/-- Claim C10: a granted `wait_for_slot` needs `est_tokens ≤ max_tpm`,
`max_rpm ≥ 1` and `max_rpd ≥ 1`; `estimate_tokens(1200) = 800`; and with
`est_tokens > max_tpm` no check can ever pass (the loop runs forever), in
particular for any `max_tpm < 800` the `explain_page` request of
`estimate_tokens(1200)` tokens is never granted. -/
theorem claim_C10_admission_termination :
    (∀ (max_rpm max_tpm max_rpd : ℕ) (window : ℚ) (st : RLState) (now : ℚ) (est : ℕ)
        (st' : RLState),
        waitForSlotStep max_rpm max_tpm max_rpd window st now est = some st' →
        est ≤ max_tpm ∧ 1 ≤ max_rpm ∧ 1 ≤ max_rpd)
    ∧ estimateTokens 1200 = 800
    ∧ (∀ (max_rpm max_tpm max_rpd : ℕ) (window : ℚ) (st : RLState) (now : ℚ) (est : ℕ),
        max_tpm < est →
        waitForSlotStep max_rpm max_tpm max_rpd window st now est = none) := by
  refine ⟨?_, rfl, ?_⟩
  · intro rpm tpm rpd window st now est st' h
    unfold waitForSlotStep at h
    by_cases hc : slotOk rpm tpm rpd (pruneState window st now) est = true
    · simp only [slotOk, Bool.and_eq_true, decide_eq_true_eq] at hc
      omega
    · rw [if_neg hc] at h
      exact absurd h (by simp)
  · intro rpm tpm rpd window st now est hlt
    have hc : slotOk rpm tpm rpd (pruneState window st now) est = false := by
      have h2 : decide (((pruneState window st now).used_tokens.map Prod.snd).sum + est ≤ tpm)
          = false := decide_eq_false (by omega)
      simp only [slotOk]
      rw [h2]
      simp
    simp [waitForSlotStep, hc]

/-- Claim C10 witness: a concrete granted step (budget exactly met) through
the theorem's first conjunct, and a concrete starved step at
`max_tpm = 799 < 800 = estimate_tokens(1200)`. -/
theorem claim_C10_witness :
    (800 ≤ 800 ∧ 1 ≤ 1 ∧ 1 ≤ 1)
    ∧ estimateTokens 1200 = 800
    ∧ waitForSlotStep 1 799 1 60 initRLState 0 (estimateTokens 1200) = none :=
  ⟨claim_C10_admission_termination.1 1 800 1 60 initRLState 0 800
      ⟨[0], [(0, 800)], [0]⟩ (by decide),
   claim_C10_admission_termination.2.1,
   claim_C10_admission_termination.2.2 1 799 1 60 initRLState 0 (estimateTokens 1200)
      (by decide)⟩

/-- Claim C3: `explain_page` makes at most 5 attempts; four failures then a
success return the success text (stripped) after sleeps
`1.5^k + jitter_k` for `k = 0..3`; five failures surface the fifth error
after the same four sleeps, with no sixth call. -/
theorem claim_C3_retry_budget {ε : Type} (service : ℕ → Except ε (List Char))
    (jitter : ℕ → ℚ) (t : List Char) (errf : ℕ → ε) :
    ((explainPage service jitter).2.1 ≤ 5)
    ∧ ((∀ n, n < 4 → service n = .error (errf n)) → service 4 = .ok t →
        explainPage service jitter =
          (.ok (pyStrip t), 5,
           [1 + jitter 0, 3/2 + jitter 1, 9/4 + jitter 2, 27/8 + jitter 3]))
    ∧ ((∀ n, n ≤ 4 → service n = .error (errf n)) →
        explainPage service jitter =
          (.error (errf 4), 5,
           [1 + jitter 0, 3/2 + jitter 1, 9/4 + jitter 2, 27/8 + jitter 3])) := by
  refine ⟨?_, ?_, ?_⟩
  · have := explainAttempt_calls_le service jitter 5 0 1 (by omega)
    simpa [explainPage] using this
  · intro h4 h5
    unfold explainPage
    rw [explainAttempt_error_retry (h4 0 (by omega)) (by omega),
        explainAttempt_error_retry (h4 1 (by omega)) (by omega),
        explainAttempt_error_retry (h4 2 (by omega)) (by omega),
        explainAttempt_error_retry (h4 3 (by omega)) (by omega),
        explainAttempt_ok h5]
    norm_num
  · intro h5
    unfold explainPage
    rw [explainAttempt_error_retry (h5 0 (by omega)) (by omega),
        explainAttempt_error_retry (h5 1 (by omega)) (by omega),
        explainAttempt_error_retry (h5 2 (by omega)) (by omega),
        explainAttempt_error_retry (h5 3 (by omega)) (by omega),
        explainAttempt_error_last (h5 4 (by omega)) (by omega)]
    norm_num

/-- Claim C3 witness: at the concrete fail-4-then-succeed service with zero
jitter, at most five attempts are made and the success text comes back after
sleeps 1, 1.5, 2.25, 3.375. -/
theorem claim_C3_witness :
    ((explainPage cexService (fun _ => 0)).2.1 ≤ 5)
    ∧ explainPage cexService (fun _ => 0) =
        (.ok (pyStrip ['a']), 5, [1 + 0, 3/2 + 0, 9/4 + 0, 27/8 + 0]) :=
  ⟨(claim_C3_retry_budget cexService (fun _ => 0) ['a'] (fun _ => ())).1,
   (claim_C3_retry_budget cexService (fun _ => 0) ['a'] (fun _ => ())).2.1
     (fun n hn => by
       rcases (by omega : n = 0 ∨ n = 1 ∨ n = 2 ∨ n = 3) with h | h | h | h <;>
         subst h <;> rfl)
     rfl⟩

lemma alnum_not_space {c : Char} (h : c.isAlphanum = true) : isSpaceChar c = false := by
  cases hc : isSpaceChar c
  · rfl
  · exfalso
    simp only [isSpaceChar, Bool.or_eq_true, decide_eq_true_eq] at hc
    rcases hc with ((((h1 | h1) | h1) | h1) | h1) | h1 <;> subst h1 <;> revert h <;> decide

lemma alnum_not_blankChar {c : Char} (h : c.isAlphanum = true) : isBlankChar c = false := by
  have hpunct : ∀ x ∈ blankPunct, x.isAlphanum = false := by decide
  cases hc : isBlankChar c
  · rfl
  · exfalso
    simp only [isBlankChar, Bool.or_eq_true] at hc
    rcases hc with h1 | h1
    · rw [alnum_not_space h] at h1; exact absurd h1 (by simp)
    · have : c ∈ blankPunct := by
        simpa [List.contains] using h1
      rw [hpunct c this] at h
      exact absurd h (by simp)

lemma dropWhile_of_all_false {p : Char → Bool} :
    ∀ (l : List Char), (∀ c ∈ l, p c = false) → l.dropWhile p = l := by
  intro l h
  cases l with
  | nil => rfl
  | cons a l =>
    rw [List.dropWhile_cons, h a (List.mem_cons_self a l)]
    simp

lemma pyStrip_of_no_space {s : List Char} (h : ∀ c ∈ s, isSpaceChar c = false) :
    pyStrip s = s := by
  unfold pyStrip
  rw [dropWhile_of_all_false s h,
      dropWhile_of_all_false s.reverse (fun c hc => h c (List.mem_reverse.mp hc)),
      List.reverse_reverse]

/-- Claim C8: with `min_chars = 10`, `None` is blank; blankness depends only
on the non-stripped characters (so it is invariant under rearranging
whitespace runs and under removing stripped punctuation); every 9-character
all-punctuation string is blank; every 10-character alphanumeric string is
not blank. -/
theorem claim_C8_blank_values :
    isBlankExplanation none 10 = true
    ∧ (∀ (s t : List Char) (m : ℕ),
        s.filter (fun c => !isBlankChar c) = t.filter (fun c => !isBlankChar c) →
        isBlankExplanation (some s) m = isBlankExplanation (some t) m)
    ∧ (∀ s : List Char, s.length = 9 → (∀ c ∈ s, blankPunct.contains c = true) →
        isBlankExplanation (some s) 10 = true)
    ∧ (∀ s : List Char, s.length = 10 → (∀ c ∈ s, c.isAlphanum = true) →
        isBlankExplanation (some s) 10 = false) := by
  refine ⟨rfl, ?_, ?_, ?_⟩
  · intro s t m h
    simp only [isBlankExplanation]
    rw [h]
  · intro s hlen hmem
    have hnil : s.filter (fun c => !isBlankChar c) = [] := by
      rw [List.filter_eq_nil_iff]
      intro a ha
      have hmem' : a ∈ blankPunct := by simpa [List.contains] using hmem a ha
      simp [isBlankChar, hmem']
    simp [isBlankExplanation, hnil, pyStrip]
  · intro s hlen hmem
    have hself : s.filter (fun c => !isBlankChar c) = s := by
      rw [List.filter_eq_self]
      intro a ha
      simp [alnum_not_blankChar (hmem a ha)]
    have hstrip : pyStrip s = s :=
      pyStrip_of_no_space (fun c hc => alnum_not_space (hmem c hc))
    simp [isBlankExplanation, hself, hstrip, hlen]

/-- Claim C7: for a source page with non-zero rotation, `_compose_vector`
embeds with the rotation zeroed (at the unrotated extent) and the page's
rotation attribute is restored to its original value when the call
returns. -/
theorem claim_C7_rotation_frame (p : Page) (font_size : ℕ) (explanation : List Char)
    (render_mode : RenderMode) (line_spacing : ℚ) (column_padding : ℤ) (oracle : ℕ → ℚ)
    (h : p.rotation ≠ 0) :
    (composeVector p font_size explanation render_mode line_spacing column_padding
        oracle).src_rotation_after = p.rotation
    ∧ (composeVector p font_size explanation render_mode line_spacing column_padding
        oracle).embed_rotation = 0
    ∧ (composeVector p font_size explanation render_mode line_spacing column_padding
        oracle).embed_w = p.w0
    ∧ (composeVector p font_size explanation render_mode line_spacing column_padding
        oracle).embed_h = p.h0 := by
  by_cases hrm : render_mode = RenderMode.empty_right <;>
    simp [composeVector, h, hrm, pageRectW, pageRectH]

/-- Claim C7 witness: a 400 × 600 page with rotation 90. -/
theorem claim_C7_witness :
    (composeVector ⟨400, 600, 90⟩ 12 [] RenderMode.text (7/5) 10
        (fun _ => 0)).src_rotation_after = 90
    ∧ (composeVector ⟨400, 600, 90⟩ 12 [] RenderMode.text (7/5) 10
        (fun _ => 0)).embed_rotation = 0
    ∧ (composeVector ⟨400, 600, 90⟩ 12 [] RenderMode.text (7/5) 10
        (fun _ => 0)).embed_w = 400
    ∧ (composeVector ⟨400, 600, 90⟩ 12 [] RenderMode.text (7/5) 10
        (fun _ => 0)).embed_h = 600 :=
  claim_C7_rotation_frame ⟨400, 600, 90⟩ 12 [] RenderMode.text (7/5) 10 (fun _ => 0)
    (by decide)

/-- Claim C6 (amended): the selector returns `column_count = 1` whenever the
estimated single-column capacity, scaled by the render-mode fudge factor,
covers the effective text length — the code has no literal 500-character
rule in the selector. -/
theorem claim_C6_single_column (w h : ℚ) (font_size : ℕ) (line_spacing : ℚ)
    (column_padding : ℤ) (render_mode : RenderMode) (text : List Char)
    (hcap : (effectiveLength text : ℚ) ≤
      (estimatedCapacityCompose font_size line_spacing
        ((buildRects w h font_size line_spacing column_padding render_mode 3 0).take 1) : ℚ) *
        fudgeFactor render_mode) :
    columnCount w h font_size line_spacing column_padding render_mode text = 1 := by
  unfold columnCount
  dsimp only
  rw [List.find?_cons_of_pos _ (by exact decide_eq_true hcap)]

set_option maxRecDepth 4000 in
unseal Rat.mul Rat.add Rat.sub Rat.inv in
/-- Claim C6 witness: ordinary geometry (400 × 600 page, 12 pt font, 1.2 line
spacing) where a 300-character text satisfies the capacity hypothesis and
one column is selected. -/
theorem claim_C6_witness :
    columnCount 400 600 12 (6/5) 10 RenderMode.text (List.replicate 300 'a') = 1 :=
  claim_C6_single_column 400 600 12 (6/5) 10 RenderMode.text (List.replicate 300 'a')
    (by decide)

set_option maxRecDepth 4000 in
unseal Rat.mul Rat.add Rat.sub Rat.inv in
/-- Claim C6 counterexample: with a 100 pt font on a 400 × 600 page the
estimated capacities of one, two and three columns are 2, 4 and 6
characters, so a 300-character text (well under 500 characters) selects 3
columns, not 1 — the `length ≤ 500 ⇒ 1 column` rule fails for extreme font
sizes relative to the page geometry. -/
theorem claim_C6_counterexample :
    columnCount 400 600 100 (7/5) 10 RenderMode.text (List.replicate 300 'a') = 3
    ∧ (List.replicate 300 'a').length = 300 :=
  ⟨by decide, by simp⟩

/-! ### The partition round-trip (claims C2 and C5) -/

lemma flatten_replicate_nil : ∀ n : ℕ, (List.replicate n ([] : List Char)).flatten = [] := by
  intro n
  induction n with
  | zero => rfl
  | succ n ih => simpa [List.replicate_succ] using ih

lemma allocCols_flatten : ∀ (caps : List ℤ) (rem : List Char) (tc : ℤ),
    (allocCols caps rem tc).1.flatten ++ (allocCols caps rem tc).2 = rem := by
  intro caps
  induction caps with
  | nil => intro rem tc; simp [allocCols]
  | cons c cs ih =>
    intro rem tc
    by_cases hrem : rem.isEmpty
    · rw [List.isEmpty_iff] at hrem
      subst hrem
      simp [allocCols, flatten_replicate_nil]
    · by_cases hcs : cs.isEmpty
      · rw [List.isEmpty_iff] at hcs
        subst hcs
        simp [allocCols, hrem]
      · simp only [allocCols]
        rw [if_neg hrem, if_neg hcs]
        rw [List.flatten_cons, List.append_assoc, ih]
        exact List.take_append_drop _ rem

lemma allocCols_length : ∀ (caps : List ℤ) (rem : List Char) (tc : ℤ),
    (allocCols caps rem tc).1.length = caps.length := by
  intro caps
  induction caps with
  | nil => intro rem tc; simp [allocCols]
  | cons c cs ih =>
    intro rem tc
    by_cases hrem : rem.isEmpty
    · simp [allocCols, hrem]
    · by_cases hcs : cs.isEmpty
      · rw [List.isEmpty_iff] at hcs
        subst hcs
        simp [allocCols, hrem]
      · simp only [allocCols]
        rw [if_neg hrem, if_neg hcs]
        simp [ih]

lemma appendToLast_flatten : ∀ (parts : List (List Char)) (rem : List Char), parts ≠ [] →
    (appendToLast parts rem).flatten = parts.flatten ++ rem := by
  intro parts
  induction parts with
  | nil => intro rem h; exact absurd rfl h
  | cons p ps ih =>
    intro rem _
    cases ps with
    | nil => simp [appendToLast]
    | cons q qs =>
      have hstep : appendToLast (p :: q :: qs) rem = p :: appendToLast (q :: qs) rem := rfl
      rw [hstep, List.flatten_cons, List.flatten_cons, ih rem (by simp), List.append_assoc]

lemma smartTextLayout_flatten (text : List Char) (column_rects : List Rect)
    (font_size : ℕ) (line_spacing : ℚ)
    (hstrip : pyStrip text ≠ []) (hrects : column_rects ≠ []) :
    (smartTextLayout text column_rects font_size line_spacing).flatten = text := by
  unfold smartTextLayout
  rw [if_neg (by simpa using hstrip), if_neg (by simpa using hrects)]
  by_cases hlen : text.length ≤ 500
  · rw [if_pos hlen]
    simp [flatten_replicate_nil]
  · rw [if_neg hlen]
    dsimp only
    by_cases h2 : (allocCols
        (column_rects.map (estimateTextCapacity font_size line_spacing)) text
        (max (column_rects.map (estimateTextCapacity font_size line_spacing)).sum 1)).2.isEmpty
    · rw [if_pos h2]
      have hj := allocCols_flatten (column_rects.map (estimateTextCapacity font_size line_spacing))
        text (max (column_rects.map (estimateTextCapacity font_size line_spacing)).sum 1)
      rw [List.isEmpty_iff] at h2
      rw [h2, List.append_nil] at hj
      exact hj
    · rw [if_neg h2]
      have hlen' := allocCols_length
        (column_rects.map (estimateTextCapacity font_size line_spacing)) text
        (max (column_rects.map (estimateTextCapacity font_size line_spacing)).sum 1)
      rw [appendToLast_flatten _ _ (by
        intro hnil
        rw [hnil] at hlen'
        simp only [List.length_nil] at hlen'
        have hm : (column_rects.map (estimateTextCapacity font_size line_spacing)).length = 0 :=
          hlen'.symm
        rw [List.length_map] at hm
        exact hrects (List.length_eq_zero.mp hm))]
      exact allocCols_flatten _ _ _

/-- Claim C2 (amended): for a text with at least one non-whitespace character
and a non-empty column list, concatenating the primary page's assigned
column segments in column order reproduces the text exactly.  (The
whitespace-only branch returns all-empty segments and loses the text, and
continuation-page segments are re-estimated suffixes of primary segments —
see the counterexample.) -/
theorem claim_C2_partition_roundtrip (text : List Char) (column_rects : List Rect)
    (font_size : ℕ) (line_spacing : ℚ)
    (hstrip : pyStrip text ≠ []) (hrects : column_rects ≠ []) :
    (smartTextLayout text column_rects font_size line_spacing).flatten = text :=
  smartTextLayout_flatten text column_rects font_size line_spacing hstrip hrects

/-- Claim C2 witness: a concrete two-character text over one column
reconstructs exactly. -/
theorem claim_C2_witness :
    (smartTextLayout ['h', 'i'] [⟨0, 0, 100, 100⟩] 12 (7/5)).flatten = ['h', 'i'] :=
  claim_C2_partition_roundtrip ['h', 'i'] [⟨0, 0, 100, 100⟩] 12 (7/5)
    (by decide) (by decide)

/-- Claim C2 counterexample: the single-space explanation text is not
reproduced — `_smart_text_layout` returns all-empty segments for
whitespace-only text (the `if not text.strip()` branch), so one character is
lost and the concatenation is empty rather than the original text. -/
theorem claim_C2_counterexample :
    (smartTextLayout [' '] [⟨0, 0, 100, 100⟩] 12 (7/5)).flatten = []
    ∧ ([' '] : List Char).length = 1 :=
  ⟨by decide, rfl⟩

lemma rfindSub_cases (hay sub : List Char) :
    rfindSub hay sub = -1 ∨
      (0 ≤ rfindSub hay sub ∧ (rfindSub hay sub).toNat + sub.length ≤ hay.length) := by
  unfold rfindSub
  have aux : ∀ (l : List ℕ) (acc : ℤ),
      (acc = -1 ∨ (0 ≤ acc ∧ acc.toNat + sub.length ≤ hay.length)) →
      (l.foldl (fun acc i =>
          if i + sub.length ≤ hay.length ∧ (hay.drop i).take sub.length = sub
          then (i : ℤ) else acc) acc = -1 ∨
        (0 ≤ l.foldl (fun acc i =>
            if i + sub.length ≤ hay.length ∧ (hay.drop i).take sub.length = sub
            then (i : ℤ) else acc) acc ∧
          (l.foldl (fun acc i =>
            if i + sub.length ≤ hay.length ∧ (hay.drop i).take sub.length = sub
            then (i : ℤ) else acc) acc).toNat + sub.length ≤ hay.length)) := by
    intro l
    induction l with
    | nil => intro acc h; exact h
    | cons i l ih =>
      intro acc h
      rw [List.foldl_cons]
      by_cases hc : i + sub.length ≤ hay.length ∧ (hay.drop i).take sub.length = sub
      · rw [if_pos hc]
        exact ih _ (Or.inr ⟨Int.natCast_nonneg i, by simpa using hc.1⟩)
      · rw [if_neg hc]
        exact ih _ h
  exact aux _ _ (Or.inl rfl)

lemma sepList_nonempty : ∀ sep ∈ sepList, 1 ≤ sep.length := by decide

lemma splitPos_le (allocText : List Char) (alloc : ℕ)
    (hlen : allocText.length = alloc) : splitPos allocText alloc ≤ alloc := by
  unfold splitPos
  cases hf : sepList.find? (fun sep =>
      decide ((alloc : ℚ) * (7/10) < (rfindSub allocText sep : ℚ))) with
  | none => exact le_refl alloc
  | some sep =>
    have hsep : sep ∈ sepList := List.mem_of_find?_eq_some hf
    have hp := List.find?_some hf
    rw [decide_eq_true_eq] at hp
    rcases rfindSub_cases allocText sep with hneg | ⟨hge, hle⟩
    · exfalso
      rw [hneg] at hp
      have : (0 : ℚ) ≤ (alloc : ℚ) * (7/10) := by positivity
      simp only [Int.cast_neg, Int.cast_one] at hp
      linarith
    · have := sepList_nonempty sep hsep
      change (rfindSub allocText sep).toNat + 1 ≤ alloc
      omega

lemma sum_nonneg_of_pos {l : List ℤ} (h : ∀ x ∈ l, 1 ≤ x) : 0 ≤ l.sum := by
  induction l with
  | nil => simp
  | cons x xs ih =>
    simp only [List.sum_cons]
    have hx := h x (by simp)
    have hxs := ih (fun z hz => h z (by simp [hz]))
    omega

lemma sum_ge_one_of_pos {l : List ℤ} (hne : l ≠ []) (hpos : ∀ x ∈ l, 1 ≤ x) :
    1 ≤ l.sum := by
  cases l with
  | nil => exact absurd rfl hne
  | cons x xs =>
    simp only [List.sum_cons]
    have hx := hpos x (by simp)
    have hxs := sum_nonneg_of_pos (l := xs) (fun z hz => hpos z (by simp [hz]))
    omega

lemma allocCols_over : ∀ (caps : List ℤ) (rem : List Char), caps ≠ [] →
    (∀ x ∈ caps, 1 ≤ x) → caps.sum < (rem.length : ℤ) →
    (allocCols caps rem (max caps.sum 1)).2 = [] ∧
    (allocCols caps rem (max caps.sum 1)).1.getLast?.getD [] ≠ [] := by
  intro caps
  induction caps with
  | nil => intro rem h; exact absurd rfl h
  | cons c cs ih =>
    intro rem _ hpos hover
    have hc1 : 1 ≤ c := hpos c (List.mem_cons_self c cs)
    have hrem_ne : ¬rem.isEmpty := by
      rw [List.isEmpty_iff]
      intro hnil
      rw [hnil] at hover
      simp only [List.length_nil, Nat.cast_zero] at hover
      have := sum_nonneg_of_pos hpos
      omega
    have hrem_nil : rem ≠ [] := by
      intro hnil
      rw [← List.isEmpty_iff] at hnil
      exact hrem_ne hnil
    cases hcs : cs with
    | nil =>
      subst hcs
      have hsum1 : (c :: ([] : List ℤ)).sum = c := by simp
      rw [hsum1] at hover ⊢
      have hmax : max c 1 = c := by omega
      rw [hmax]
      have h1 : allocCols [c] rem c = ([rem], []) := by
        simp [allocCols, hrem_ne]
      rw [h1]
      exact ⟨rfl, by simpa using hrem_nil⟩
    | cons c2 cs2 =>
      have hcs_ne : (c2 :: cs2 : List ℤ) ≠ [] := by simp
      have hpos_cs : ∀ x ∈ (c2 :: cs2 : List ℤ), 1 ≤ x :=
        fun x hx => hpos x (List.mem_cons_of_mem c (hcs ▸ hx))
      have hS1 : 1 ≤ (c2 :: cs2 : List ℤ).sum := sum_ge_one_of_pos hcs_ne hpos_cs
      subst hcs
      set L : ℤ := (rem.length : ℤ) with hL
      set S : ℤ := (c2 :: cs2 : List ℤ).sum with hSdef
      have hsum : (c :: c2 :: cs2 : List ℤ).sum = c + S := by
        rw [hSdef]; simp
      rw [hsum] at hover ⊢
      have htc : max (c + S) 1 = c + S := by omega
      rw [htc]
      rw [allocCols.eq_def]
      dsimp only
      rw [if_neg hrem_ne, if_neg (by simp : ¬(c2 :: cs2 : List ℤ).isEmpty = true)]
      set prop : ℤ := max (pyint ((rem.length : ℚ) * ((c : ℚ) / ((c + S : ℤ) : ℚ)))) 1 with hprop
      set alloc : ℤ := min (max c prop) (rem.length : ℤ) with halloc
      set split : ℕ := splitPos (rem.take alloc.toNat) alloc.toNat with hsplit
      have halloc_nonneg : 0 ≤ alloc := by
        rw [halloc]
        have h0 : (0:ℤ) ≤ (rem.length : ℤ) := Int.natCast_nonneg _
        omega
      have halloc_le_L : alloc ≤ L := by rw [halloc, hL]; omega
      have hkey : alloc + S < L := by
        by_cases hpc : prop ≤ c
        · have h1 : alloc ≤ c := by rw [halloc]; omega
          omega
        · push_neg at hpc
          have hprop_eq : prop = pyint ((rem.length : ℚ) * ((c : ℚ) / ((c + S : ℤ) : ℚ))) := by
            rw [hprop]
            have : 1 < prop := lt_of_le_of_lt hc1 hpc
            rw [hprop] at this
            omega
          have htcpos : (0:ℚ) < ((c + S : ℤ) : ℚ) := by
            have h0 : (0:ℤ) < c + S := by omega
            exact_mod_cast h0
          have hq_nonneg : (0:ℚ) ≤ (rem.length : ℚ) * ((c : ℚ) / ((c + S : ℤ) : ℚ)) := by
            have h1 : (0:ℚ) ≤ (rem.length : ℚ) := by positivity
            have h3 : (0:ℚ) ≤ (c:ℚ) := by exact_mod_cast (by omega : (0:ℤ) ≤ c)
            have := le_of_lt htcpos
            positivity
          have hple : (prop : ℚ) ≤ (rem.length : ℚ) * ((c : ℚ) / ((c + S : ℤ) : ℚ)) := by
            rw [hprop_eq]
            exact pyint_le _ hq_nonneg
          have hmul : (prop : ℚ) * ((c + S : ℤ) : ℚ) ≤ (rem.length : ℚ) * (c : ℚ) := by
            have step := mul_le_mul_of_nonneg_right hple (le_of_lt htcpos)
            calc (prop : ℚ) * ((c + S : ℤ) : ℚ)
                ≤ (rem.length : ℚ) * ((c : ℚ) / ((c + S : ℤ) : ℚ)) * ((c + S : ℤ) : ℚ) := step
              _ = (rem.length : ℚ) * (c : ℚ) := by
                  field_simp
          have hSq : (1:ℚ) ≤ (S:ℚ) := by exact_mod_cast hS1
          have hcq : (1:ℚ) ≤ (c:ℚ) := by exact_mod_cast hc1
          have hoverq : (c:ℚ) + (S:ℚ) < (rem.length : ℚ) := by exact_mod_cast hover
          have hcast : ((c + S : ℤ) : ℚ) = (c:ℚ) + (S:ℚ) := by push_cast; ring
          rw [hcast] at hmul
          have hfin : (prop : ℚ) + (S:ℚ) < (rem.length : ℚ) := by nlinarith
          have hfin' : prop + S < L := by
            rw [hL]
            exact_mod_cast hfin
          have h2 : alloc ≤ prop := by rw [halloc]; omega
          omega
      have hsplit_le : split ≤ alloc.toNat := by
        rw [hsplit]
        apply splitPos_le
        rw [List.length_take]
        have h3 : alloc.toNat ≤ rem.length := by omega
        omega
      have hdrop_len : (c2 :: cs2 : List ℤ).sum < ((rem.drop split).length : ℤ) := by
        rw [List.length_drop, ← hSdef]
        have hsplitZ : (split : ℤ) ≤ alloc := by omega
        have h4 : split ≤ rem.length := by omega
        push_cast
        omega
      have hmaxS : max ((c + S) - c) 1 = max (c2 :: cs2 : List ℤ).sum 1 := by
        rw [← hSdef]
        omega
      rw [hmaxS]
      obtain ⟨ih2, ih1⟩ := ih (rem.drop split) (by simp) hpos_cs hdrop_len
      refine ⟨ih2, ?_⟩
      have hlen1 : (allocCols (c2 :: cs2) (rem.drop split)
          (max (c2 :: cs2 : List ℤ).sum 1)).1.length = (c2 :: cs2 : List ℤ).length :=
        allocCols_length _ _ _
      cases hr1 : (allocCols (c2 :: cs2) (rem.drop split)
          (max (c2 :: cs2 : List ℤ).sum 1)).1 with
      | nil =>
        rw [hr1] at hlen1
        simp at hlen1
      | cons y ys =>
        rw [hr1] at ih1
        rw [List.getLast?_cons_cons]
        exact ih1

/-- Claim C5 (amended): when a long text (> 500 characters, not all
whitespace) exceeds the total estimated capacity of the chosen columns
(each of positive capacity), the partition gives the last column the entire
non-empty remainder — it is not left empty — and no text is discarded: the
segments still concatenate to the whole text.  The overflow inside the last
column is what continuation-page handling later picks up from the
renderer's leftover report. -/
theorem claim_C5_over_capacity (text : List Char) (column_rects : List Rect)
    (font_size : ℕ) (line_spacing : ℚ)
    (hstrip : pyStrip text ≠ []) (hrects : column_rects ≠ [])
    (hlen : 500 < text.length)
    (hpos : ∀ x ∈ column_rects.map (estimateTextCapacity font_size line_spacing), 1 ≤ x)
    (hover : (column_rects.map (estimateTextCapacity font_size line_spacing)).sum <
      (text.length : ℤ)) :
    (smartTextLayout text column_rects font_size line_spacing).getLast?.getD [] ≠ []
    ∧ (smartTextLayout text column_rects font_size line_spacing).flatten = text := by
  refine ⟨?_, smartTextLayout_flatten text column_rects font_size line_spacing hstrip hrects⟩
  unfold smartTextLayout
  rw [if_neg (by simpa using hstrip), if_neg (by simpa using hrects),
    if_neg (by omega : ¬text.length ≤ 500)]
  dsimp only
  have hmap_ne : column_rects.map (estimateTextCapacity font_size line_spacing) ≠ [] := by
    simpa using hrects
  obtain ⟨h2, h1⟩ := allocCols_over
    (column_rects.map (estimateTextCapacity font_size line_spacing)) text hmap_ne hpos hover
  rw [if_pos (by rw [h2]; rfl)]
  exact h1

set_option maxRecDepth 8000 in
unseal Rat.mul Rat.add Rat.sub Rat.inv in
/-- Claim C5 witness: 501 repeated characters over three 58-character
columns (total capacity 174 < 501): the last segment is non-empty and the
partition is lossless. -/
theorem claim_C5_witness :
    (smartTextLayout (List.replicate 501 'a') cexRects3 12 (7/5)).getLast?.getD [] ≠ []
    ∧ (smartTextLayout (List.replicate 501 'a') cexRects3 12 (7/5)).flatten =
        List.replicate 501 'a' :=
  claim_C5_over_capacity (List.replicate 501 'a') cexRects3 12 (7/5)
    (by decide) (by decide) (by decide) (by decide) (by decide)

set_option maxRecDepth 8000 in
unseal Rat.mul Rat.add Rat.sub Rat.inv in
/-- Claim C5 counterexample: same over-capacity input — capacities sum to
174 < 501 — yet the last column's segment has 167 characters, not the empty
segment the claim asserts; the loop's final branch assigns the whole
remainder to the last column. -/
theorem claim_C5_counterexample :
    ((smartTextLayout (List.replicate 501 'a') cexRects3 12 (7/5)).getLast?.getD []).length
      = 167
    ∧ (cexRects3.map (estimateTextCapacity 12 (7/5))).sum = 174
    ∧ (List.replicate 501 'a').length = 501 :=
  ⟨by decide, by decide, by decide⟩

/-! ### Claim C9: degraded composition totality -/

lemma smartTextLayout_nil_text (rects : List Rect) (fs : ℕ) (ls : ℚ) :
    smartTextLayout [] rects fs ls = List.replicate rects.length [] := rfl

lemma composeVector_empty_text (p : Page) (fs : ℕ) (mode : RenderMode) (ls : ℚ)
    (pad : ℤ) (oracle : ℕ → ℚ) :
    (∀ part ∈ (composeVector p fs [] mode ls pad oracle).parts, part = ([] : List Char))
    ∧ (composeVector p fs [] mode ls pad oracle).continuation = false := by
  unfold composeVector
  dsimp only
  by_cases hrm : mode = RenderMode.empty_right
  · rw [if_pos hrm]
    exact ⟨by simp, rfl⟩
  · rw [if_neg hrm]
    dsimp only
    constructor
    · intro part hpart
      rw [smartTextLayout_nil_text] at hpart
      exact List.eq_of_mem_replicate hpart
    · rw [List.any_eq_false]
      intro x hx
      obtain ⟨ie, hie, rfl⟩ := List.mem_map.mp hx
      have h2 : ie.2 ∈ (smartTextLayout [] (List.take
          (columnCount (if p.rotation ≠ 0 then pageRectW { p with rotation := 0 }
            else pageRectW p) (if p.rotation ≠ 0 then pageRectH { p with rotation := 0 }
            else pageRectH p) fs ls pad mode [])
          (buildRects (if p.rotation ≠ 0 then pageRectW { p with rotation := 0 }
            else pageRectW p) (if p.rotation ≠ 0 then pageRectH { p with rotation := 0 }
            else pageRectH p) fs ls pad mode 3 0)) fs ls) := by
        have := List.mem_map_of_mem Prod.snd hie
        rw [List.enum_map_snd] at this
        convert this using 2 <;> by_cases hr : p.rotation ≠ 0 <;> simp [hr]
      rw [smartTextLayout_nil_text] at h2
      have h3 : ie.2 = ([] : List Char) := List.eq_of_mem_replicate h2
      rw [h3]
      simp [pyStrip]

/-- Claim C9: `compose_pdf` yields one composed page per source page for
every explanation map and every renderer behaviour; a page whose index is
missing from the map is composed with an empty text region — every column
segment empty and no continuation page — and no error is raised (the
function is total). -/
theorem claim_C9_compose_total (pages : List Page) (explanations : List (ℕ × List Char))
    (font_size : ℕ) (render_mode : RenderMode) (line_spacing : ℚ) (column_padding : ℤ)
    (oracle : ℕ → ℕ → ℚ) (hfs : 0 < font_size) :
    (composePdf pages explanations font_size render_mode line_spacing column_padding
        oracle).length = pages.length
    ∧ (∀ pno : ℕ, pno < pages.length →
        dictGet? explanations pno = none →
        (∀ part ∈ ((composePdf pages explanations font_size render_mode line_spacing
            column_padding oracle).getD pno dummyComposed).parts, part = ([] : List Char))
        ∧ ((composePdf pages explanations font_size render_mode line_spacing
            column_padding oracle).getD pno dummyComposed).continuation = false) := by
  constructor
  · simp [composePdf]
  · intro pno hlt hnone
    have hp : pages[pno]? = some pages[pno] := List.getElem?_eq_getElem hlt
    have hentry : (composePdf pages explanations font_size render_mode line_spacing
        column_padding oracle)[pno]? =
        some (composeVector pages[pno] font_size ((dictGet? explanations pno).getD [])
          render_mode line_spacing column_padding (oracle pno)) := by
      simp [composePdf, List.getElem?_map, List.getElem?_enum, hp]
    rw [List.getD_eq_getElem?_getD, hentry, Option.getD_some, hnone]
    exact composeVector_empty_text pages[pno] font_size render_mode line_spacing
      column_padding (oracle pno)

set_option maxRecDepth 4000 in
unseal Rat.mul Rat.add Rat.sub Rat.inv in
/-- Claim C9 witness: one 400 × 600 page with an empty explanation map
composes to a single page with no continuation. -/
theorem claim_C9_witness :
    (composePdf [⟨400, 600, 0⟩] [] 12 RenderMode.text (7/5) 10 (fun _ _ => 0)).length = 1
    ∧ ((composePdf [⟨400, 600, 0⟩] [] 12 RenderMode.text (7/5) 10
        (fun _ _ => 0)).getD 0 dummyComposed).continuation = false :=
  ⟨(claim_C9_compose_total [⟨400, 600, 0⟩] [] 12 RenderMode.text (7/5) 10
      (fun _ _ => 0) (by decide)).1,
   ((claim_C9_compose_total [⟨400, 600, 0⟩] [] 12 RenderMode.text (7/5) 10
      (fun _ _ => 0) (by decide)).2 0 (by decide) (by decide)).2⟩

/-! ### Claim C4: blank-retry selection and merging -/

lemma find?_key_map_update (k : ℕ) (v : List Char) :
    ∀ d : List (ℕ × List Char),
      (d.map (fun kv => if kv.1 == k then (k, v) else kv)).find? (fun kv => kv.1 == k)
        = (d.find? (fun kv => kv.1 == k)).map (fun _ => (k, v)) := by
  intro d
  induction d with
  | nil => rfl
  | cons kv d ih =>
    by_cases hk : (kv.1 == k) = true
    · simp only [List.map_cons, if_pos hk]
      rw [List.find?_cons_of_pos (p := fun kv : ℕ × List Char => kv.1 == k) _ (by simp),
        List.find?_cons_of_pos (p := fun kv : ℕ × List Char => kv.1 == k) _ hk]
      rfl
    · simp only [List.map_cons, if_neg hk]
      rw [List.find?_cons_of_neg (p := fun kv : ℕ × List Char => kv.1 == k) _ hk,
        List.find?_cons_of_neg (p := fun kv : ℕ × List Char => kv.1 == k) _ hk]
      exact ih

lemma find?_key_map_update_other {j k : ℕ} (v : List Char) (hjk : j ≠ k) :
    ∀ d : List (ℕ × List Char),
      (d.map (fun kv => if kv.1 == k then (k, v) else kv)).find? (fun kv => kv.1 == j)
        = d.find? (fun kv => kv.1 == j) := by
  intro d
  induction d with
  | nil => rfl
  | cons kv d ih =>
    by_cases hk : (kv.1 == k) = true
    · have hkey : kv.1 = k := beq_iff_eq.mp hk
      simp only [List.map_cons, if_pos hk]
      rw [List.find?_cons_of_neg (p := fun kv : ℕ × List Char => kv.1 == j) _
          (by simp [Ne.symm hjk]),
        List.find?_cons_of_neg (p := fun kv : ℕ × List Char => kv.1 == j) _
          (by simp [hkey, Ne.symm hjk])]
      exact ih
    · simp only [List.map_cons, if_neg hk]
      by_cases hj : (kv.1 == j) = true
      · rw [List.find?_cons_of_pos (p := fun kv : ℕ × List Char => kv.1 == j) _ hj,
          List.find?_cons_of_pos (p := fun kv : ℕ × List Char => kv.1 == j) _ hj]
      · rw [List.find?_cons_of_neg (p := fun kv : ℕ × List Char => kv.1 == j) _ hj,
          List.find?_cons_of_neg (p := fun kv : ℕ × List Char => kv.1 == j) _ hj]
        exact ih

lemma find?_append_none {q : ℕ × List Char → Bool} {l₁ : List (ℕ × List Char)}
    (h : l₁.find? q = none) (l₂ : List (ℕ × List Char)) :
    (l₁ ++ l₂).find? q = l₂.find? q := by
  induction l₁ with
  | nil => rfl
  | cons kv l ih =>
    by_cases hkv : q kv = true
    · rw [List.find?_cons_of_pos (p := q) _ hkv] at h
      exact absurd h (by simp)
    · rw [List.find?_cons_of_neg (p := q) _ hkv] at h
      rw [List.cons_append, List.find?_cons_of_neg (p := q) _ hkv]
      exact ih h

lemma find?_append_some {q : ℕ × List Char → Bool} {l₁ : List (ℕ × List Char)}
    {a : ℕ × List Char} (h : l₁.find? q = some a) (l₂ : List (ℕ × List Char)) :
    (l₁ ++ l₂).find? q = some a := by
  induction l₁ with
  | nil => exact absurd h (by simp)
  | cons kv l ih =>
    by_cases hkv : q kv = true
    · rw [List.find?_cons_of_pos (p := q) _ hkv] at h
      rw [List.cons_append, List.find?_cons_of_pos (p := q) _ hkv]
      exact h
    · rw [List.find?_cons_of_neg (p := q) _ hkv] at h
      rw [List.cons_append, List.find?_cons_of_neg (p := q) _ hkv]
      exact ih h

lemma dictGet?_dictSet_self (d : List (ℕ × List Char)) (k : ℕ) (v : List Char) :
    dictGet? (dictSet d k v) k = some v := by
  unfold dictSet dictGet?
  by_cases h : (d.find? (fun kv => kv.1 == k)).isSome
  · rw [if_pos h, find?_key_map_update]
    obtain ⟨kv0, hkv⟩ := Option.isSome_iff_exists.mp h
    rw [hkv]
    rfl
  · rw [if_neg h, find?_append_none (Option.not_isSome_iff_eq_none.mp h)]
    simp

lemma dictGet?_dictSet_other (d : List (ℕ × List Char)) (k : ℕ) (v : List Char)
    {j : ℕ} (hjk : j ≠ k) : dictGet? (dictSet d k v) j = dictGet? d j := by
  unfold dictSet dictGet?
  by_cases h : (d.find? (fun kv => kv.1 == k)).isSome
  · rw [if_pos h, find?_key_map_update_other v hjk]
  · rw [if_neg h]
    cases hd : d.find? (fun kv => kv.1 == j) with
    | some a => rw [find?_append_some hd]
    | none =>
      rw [find?_append_none hd]
      rw [List.find?_cons_of_neg (p := fun kv : ℕ × List Char => kv.1 == j) _ (by simp [Ne.symm hjk])]
      rfl

lemma mergeResults_get_of_notkey :
    ∀ (results : List (ℕ × Option (List Char))) (d : List (ℕ × List Char)) (p : ℕ),
      (∀ r ∈ results, r.1 ≠ p) →
      dictGet? (mergeResults results d) p = dictGet? d p := by
  intro results
  induction results with
  | nil => intro d p _; rfl
  | cons r rest ih =>
    intro d p h
    have hstep : mergeResults (r :: rest) d = mergeResults rest
        (match r.2 with
         | some t => if t.isEmpty then d else dictSet d r.1 t
         | none => d) := rfl
    rw [hstep, ih _ p (fun x hx => h x (List.mem_cons_of_mem r hx))]
    cases hr2 : r.2 with
    | none => rfl
    | some t =>
      dsimp only
      by_cases ht : t.isEmpty
      · rw [if_pos ht]
      · rw [if_neg ht]
        exact dictGet?_dictSet_other d r.1 t (Ne.symm (h r (List.mem_cons_self r rest)))

lemma mergeResults_get_const :
    ∀ (results : List (ℕ × Option (List Char))) (d : List (ℕ × List Char)) (p : ℕ)
      (t : List Char), (p, some t) ∈ results →
      (∀ r ∈ results, r.1 = p → r.2 = some t) → t ≠ [] →
      dictGet? (mergeResults results d) p = some t := by
  intro results
  induction results with
  | nil => intro d p t hmem; exact absurd hmem (by simp)
  | cons r rest ih =>
    intro d p t hmem hconst htne
    have hstep : mergeResults (r :: rest) d = mergeResults rest
        (match r.2 with
         | some t => if t.isEmpty then d else dictSet d r.1 t
         | none => d) := rfl
    rw [hstep]
    by_cases hr1 : r.1 = p
    · have hr2 : r.2 = some t := hconst r (List.mem_cons_self r rest) hr1
      rw [hr2]
      dsimp only
      rw [if_neg (by simpa using htne)]
      by_cases hrest : ∀ r' ∈ rest, r'.1 ≠ p
      · rw [mergeResults_get_of_notkey rest _ p hrest, hr1]
        exact dictGet?_dictSet_self d p t
      · push_neg at hrest
        obtain ⟨r', hr', hr'1⟩ := hrest
        have hr'2 : r'.2 = some t := hconst r' (List.mem_cons_of_mem r hr') hr'1
        have hmem' : (p, some t) ∈ rest := by
          have : r' = (p, some t) := by
            rcases r' with ⟨a, b⟩
            simp only at hr'1 hr'2
            rw [hr'1, hr'2]
          rw [← this]
          exact hr'
        exact ih _ p t hmem' (fun x hx => hconst x (List.mem_cons_of_mem r hx)) htne
    · have hmem' : (p, some t) ∈ rest := by
        rcases List.mem_cons.mp hmem with heq | hin
        · exact absurd (congrArg Prod.fst heq.symm) hr1
        · exact hin
      exact ih _ p t hmem' (fun x hx => hconst x (List.mem_cons_of_mem r hx)) htne

lemma retryRounds_preserve (outcome : ℕ → ℕ → Option (List Char)) (min_chars : ℕ) :
    ∀ (fuel pass : ℕ) (d : List (ℕ × List Char)) (blank : List ℕ) (p : ℕ),
      p ∉ blank →
      dictGet? (retryRounds outcome min_chars fuel pass d blank) p = dictGet? d p := by
  intro fuel
  induction fuel with
  | zero => intro pass d blank p _; rfl
  | succ fuel ih =>
    intro pass d blank p hp
    rw [retryRounds]
    by_cases hb : blank.isEmpty
    · rw [if_pos hb]
    · rw [if_neg hb]
      dsimp only
      rw [ih]
      · apply mergeResults_get_of_notkey
        intro r hr
        obtain ⟨q, hq, rfl⟩ := List.mem_map.mp hr
        exact fun h => hp (h ▸ hq)
      · intro hp'
        obtain ⟨pr, hpr, hfst⟩ := List.mem_map.mp hp'
        have hpr2 := List.mem_of_mem_filter hpr
        obtain ⟨q, hq, rfl⟩ := List.mem_map.mp hpr2
        exact hp (hfst ▸ hq)

/-- Claim C4 (amended): the blank-retry coordinator selects only pages
PRESENT in the explanation map whose text is blank (a page that failed
outright is absent from the map and is not selected for the first retry
round); an empty blank set stops the rounds immediately; and a page of the
blank set whose retry outcome is a non-empty, non-blank success is merged
into the map and keeps that value through all remaining rounds. -/
theorem claim_C4_blank_retry (outcome : ℕ → ℕ → Option (List Char)) (min_chars : ℕ) :
    (∀ (d : List (ℕ × List Char)) (p : ℕ), p ∈ pagesWithBlank d min_chars →
        (dictGet? d p).isSome = true)
    ∧ (∀ (fuel pass : ℕ) (d : List (ℕ × List Char)),
        retryRounds outcome min_chars fuel pass d [] = d)
    ∧ (∀ (fuel pass : ℕ) (d : List (ℕ × List Char)) (blank : List ℕ) (p : ℕ)
        (t : List Char), p ∈ blank → outcome pass p = some t → t ≠ [] →
        isBlankExplanation (some t) min_chars = false →
        dictGet? (retryRounds outcome min_chars (fuel + 1) pass d blank) p = some t) := by
  refine ⟨?_, ?_, ?_⟩
  · intro d p hp
    unfold pagesWithBlank at hp
    obtain ⟨kv, hkv, rfl⟩ := List.mem_map.mp hp
    have hkv2 := List.mem_of_mem_filter hkv
    unfold dictGet?
    cases hfind : d.find? (fun kv2 => kv2.1 == kv.1) with
    | none =>
      have := List.find?_eq_none.mp hfind kv hkv2
      simp at this
    | some a => rfl
  · intro fuel pass d
    cases fuel with
    | zero => rfl
    | succ fuel => rfl
  · intro fuel pass d blank p t hp hout htne hblank
    rw [retryRounds]
    rw [if_neg (by simpa using List.ne_nil_of_mem hp)]
    dsimp only
    rw [retryRounds_preserve]
    · apply mergeResults_get_const
      · exact List.mem_map.mpr ⟨p, hp, by rw [hout]⟩
      · intro r hr hfst
        obtain ⟨q, hq, rfl⟩ := List.mem_map.mp hr
        simp only at hfst
        rw [hfst, hout]
      · exact htne
    · intro hp'
      obtain ⟨pr, hpr, hfst⟩ := List.mem_map.mp hp'
      have hcond := List.of_mem_filter hpr
      have hpr2 := List.mem_of_mem_filter hpr
      obtain ⟨q, hq, rfl⟩ := List.mem_map.mp hpr2
      simp only at hfst
      rw [hfst, hout] at hcond
      simp only [Option.isNone_some, Bool.false_or] at hcond
      rw [hblank] at hcond
      exact absurd hcond (by simp)

/-- Claim C4 counterexample: page 0 fails its initial pass, so it is absent
from the explanation map; `pages_with_blank_explanations` therefore never
selects it, and with `blank_retry_times = 1` the final map is still empty —
even though the oracle would have succeeded with a non-blank text on the
retry pass (pass 1).  The claim's "identifies every page whose explanation
is null, failed, or blank" does not hold for initially-failed pages. -/
theorem claim_C4_counterexample :
    generateExplanations cexOutcome [0] true 10 1 = ([], [0])
    ∧ cexOutcome 1 0 = some (List.replicate 11 'x')
    ∧ isBlankExplanation (some (List.replicate 11 'x')) 10 = false :=
  ⟨by decide, rfl, by decide⟩

/-! ### Claim C1: the sliding-window budget invariant -/

lemma filter_inWindow_twice {α : Type} (f : α → ℚ) (w t1 t2 : ℚ) (h12 : t1 ≤ t2)
    (l : List α) :
    (l.filter (fun a => inWindow w t1 (f a))).filter (fun a => inWindow w t2 (f a))
      = l.filter (fun a => inWindow w t2 (f a)) := by
  rw [List.filter_filter]
  apply List.filter_congr
  intro a _
  by_cases h : t2 - f a < w
  · have h1 : t1 - f a < w := by linarith
    simp [inWindow, h, h1]
  · simp [inWindow, h]

lemma waitForSlotStep_bounds {rpm tpm rpd : ℕ} {window : ℚ} {st : RLState} {now : ℚ}
    {est : ℕ} {st' : RLState}
    (h : waitForSlotStep rpm tpm rpd window st now est = some st') :
    st'.req_timestamps.length ≤ rpm
    ∧ (st'.used_tokens.map Prod.snd).sum ≤ tpm
    ∧ st'.daily_requests.length ≤ rpd := by
  unfold waitForSlotStep at h
  by_cases hok : slotOk rpm tpm rpd (pruneState window st now) est = true
  · rw [if_pos hok] at h
    have hst : st' = recordGrant (pruneState window st now) now est :=
      (Option.some.injEq _ _ ▸ h).symm
    simp only [slotOk, Bool.and_eq_true, decide_eq_true_eq] at hok
    subst hst
    simp only [recordGrant, List.length_append, List.map_append, List.sum_append,
      List.length_cons, List.length_nil, List.map_cons, List.map_nil, List.sum_cons,
      List.sum_nil]
    omega
  · rw [if_neg hok] at h
    exact absurd h (by simp)

lemma waitForSlotStep_inv {rpm tpm rpd : ℕ} {window : ℚ} (hw : 0 < window)
    {grants : List (ℚ × ℕ)} {tcur now : ℚ} {st st' : RLState} {est : ℕ}
    (hinv : RLInv window grants tcur st) (hle : tcur ≤ now)
    (h : waitForSlotStep rpm tpm rpd window st now est = some st') :
    RLInv window (grants ++ [(now, est)]) now st' := by
  obtain ⟨h1, h2, h3⟩ := hinv
  unfold waitForSlotStep at h
  by_cases hok : slotOk rpm tpm rpd (pruneState window st now) est = true
  · rw [if_pos hok] at h
    have hst : st' = recordGrant (pruneState window st now) now est :=
      (Option.some.injEq _ _ ▸ h).symm
    subst hst
    have hself : inWindow window now now = true := by
      simp only [inWindow, decide_eq_true_eq, sub_self]
      linarith
    have hself86400 : inWindow 86400 now now = true := by
      simp only [inWindow, decide_eq_true_eq, sub_self]
      norm_num
    refine ⟨?_, ?_, ?_⟩
    · simp only [recordGrant, pruneState, h1]
      rw [filter_inWindow_twice (fun t => t) window tcur now hle]
      rw [List.map_append, List.filter_append]
      simp [hself]
    · simp only [recordGrant, pruneState, h2]
      rw [filter_inWindow_twice (fun e : ℚ × ℕ => e.1) window tcur now hle]
      rw [List.filter_append]
      simp [hself]
    · simp only [recordGrant, pruneState, h3]
      rw [filter_inWindow_twice (fun t => t) 86400 tcur now hle]
      rw [List.map_append, List.filter_append]
      simp [hself86400]
  · rw [if_neg hok] at h
    exact absurd h (by simp)

lemma runGrants_inv {rpm tpm rpd : ℕ} {window : ℚ} (hw : 0 < window) :
    ∀ (evs grants : List (ℚ × ℕ)) (tcur : ℚ) (st st' : RLState),
      RLInv window grants tcur st →
      List.Chain (fun a b : ℚ => a ≤ b) tcur (evs.map Prod.fst) →
      runGrants rpm tpm rpd window st evs = some st' →
      ∃ tfin, tcur ≤ tfin ∧ (∀ e ∈ evs, e.1 ≤ tfin) ∧
        RLInv window (grants ++ evs) tfin st' ∧
        (tfin = tcur ∨ tfin ∈ evs.map Prod.fst) := by
  intro evs
  induction evs with
  | nil =>
    intro grants tcur st st' hinv _ hrun
    have hst : st' = st := by
      simpa [runGrants] using hrun.symm
    exact ⟨tcur, le_refl _, by simp, by simpa [hst] using hinv, Or.inl rfl⟩
  | cons e rest ih =>
    intro grants tcur st st' hinv hchain hrun
    obtain ⟨now, est⟩ := e
    rw [List.map_cons, List.chain_cons] at hchain
    obtain ⟨hle, hchain'⟩ := hchain
    rw [runGrants] at hrun
    cases hstep : waitForSlotStep rpm tpm rpd window st now est with
    | none => rw [hstep] at hrun; exact absurd hrun (by simp)
    | some st1 =>
      rw [hstep] at hrun
      have hinv1 := waitForSlotStep_inv hw hinv hle hstep
      obtain ⟨tfin, h1, h2, h3, h4⟩ := ih (grants ++ [(now, est)]) now st1 st' hinv1 hchain' hrun
      refine ⟨tfin, le_trans hle h1, ?_, ?_, ?_⟩
      · intro x hx
        rcases List.mem_cons.mp hx with rfl | hx'
        · exact h1
        · exact h2 x hx'
      · rwa [List.append_assoc] at h3
      · rcases h4 with rfl | h4'
        · exact Or.inr (by simp)
        · exact Or.inr (by simp [h4'])

lemma runGrants_bounds {rpm tpm rpd : ℕ} {window : ℚ} :
    ∀ (evs : List (ℚ × ℕ)) (st st' : RLState), evs ≠ [] →
      runGrants rpm tpm rpd window st evs = some st' →
      st'.req_timestamps.length ≤ rpm
      ∧ (st'.used_tokens.map Prod.snd).sum ≤ tpm
      ∧ st'.daily_requests.length ≤ rpd := by
  intro evs
  induction evs with
  | nil => intro st st' h; exact absurd rfl h
  | cons e rest ih =>
    intro st st' _ hrun
    obtain ⟨now, est⟩ := e
    rw [runGrants] at hrun
    cases hstep : waitForSlotStep rpm tpm rpd window st now est with
    | none => rw [hstep] at hrun; exact absurd hrun (by simp)
    | some st1 =>
      rw [hstep] at hrun
      cases rest with
      | nil =>
        have hst : st' = st1 := by simpa [runGrants] using hrun.symm
        subst hst
        exact waitForSlotStep_bounds hstep
      | cons f rest' => exact ih st1 st' (by simp) hrun

lemma sum_map_snd_filter_le (l : List (ℚ × ℕ)) (q : ℚ × ℕ → Bool) :
    ((l.filter q).map Prod.snd).sum ≤ (l.map Prod.snd).sum := by
  induction l with
  | nil => simp
  | cons a l ih =>
    rw [List.filter_cons]
    by_cases h : q a = true
    · rw [if_pos h]
      simp only [List.map_cons, List.sum_cons]
      omega
    · rw [if_neg h]
      simp only [List.map_cons, List.sum_cons]
      omega

/-- Claim C1: for every sequence of granted `wait_for_slot` calls (issued at
nondecreasing times) and every later instant `T`, the number of grants in
the trailing `window_seconds` is at most `max_rpm`, the summed recorded
token estimates in that window at most `max_tpm`, and the grants in the
trailing 86400 s at most `max_rpd`; moreover every successful step prunes
all three counters and then records exactly one request timestamp, one
(timestamp, tokens) pair and one daily timestamp. -/
theorem claim_C1_rate_limiter (rpm tpm rpd : ℕ) (window : ℚ) (evs : List (ℚ × ℕ))
    (st' : RLState) (T : ℚ)
    (hw : 0 < window)
    (hsorted : List.Chain' (fun a b : ℚ × ℕ => a.1 ≤ b.1) evs)
    (hT : ∀ e ∈ evs, e.1 ≤ T)
    (hrun : runGrants rpm tpm rpd window initRLState evs = some st') :
    ((evs.map Prod.fst).filter (fun t => inWindow window T t)).length ≤ rpm
    ∧ ((evs.filter (fun e => inWindow window T e.1)).map Prod.snd).sum ≤ tpm
    ∧ ((evs.map Prod.fst).filter (fun t => inWindow 86400 T t)).length ≤ rpd
    ∧ (∀ (st : RLState) (now : ℚ) (est : ℕ) (stx : RLState),
        waitForSlotStep rpm tpm rpd window st now est = some stx →
        stx.req_timestamps = (pruneState window st now).req_timestamps ++ [now]
        ∧ stx.used_tokens = (pruneState window st now).used_tokens ++ [(now, est)]
        ∧ stx.daily_requests = (pruneState window st now).daily_requests ++ [now]) := by
  have hrecord : ∀ (st : RLState) (now : ℚ) (est : ℕ) (stx : RLState),
      waitForSlotStep rpm tpm rpd window st now est = some stx →
      stx.req_timestamps = (pruneState window st now).req_timestamps ++ [now]
      ∧ stx.used_tokens = (pruneState window st now).used_tokens ++ [(now, est)]
      ∧ stx.daily_requests = (pruneState window st now).daily_requests ++ [now] := by
    intro st now est stx h
    unfold waitForSlotStep at h
    by_cases hok : slotOk rpm tpm rpd (pruneState window st now) est = true
    · rw [if_pos hok] at h
      have hst : stx = recordGrant (pruneState window st now) now est :=
        (Option.some.injEq _ _ ▸ h).symm
      subst hst
      exact ⟨rfl, rfl, rfl⟩
    · rw [if_neg hok] at h
      exact absurd h (by simp)
  cases hevs : evs with
  | nil =>
    subst hevs
    exact ⟨by simp, by simp, by simp, hrecord⟩
  | cons e rest =>
    subst hevs
    have hchain0 : List.Chain' (fun a b : ℚ => a ≤ b) ((e :: rest).map Prod.fst) := by
      rw [List.chain'_map]
      exact hsorted
    have hchain : List.Chain (fun a b : ℚ => a ≤ b) e.1 ((e :: rest).map Prod.fst) := by
      rw [List.map_cons, List.chain_cons]
      exact ⟨le_refl _, by
        have := hchain0
        rw [List.map_cons] at this
        exact this⟩
    have hinit : RLInv window [] e.1 initRLState := by
      refine ⟨rfl, rfl, rfl⟩
    obtain ⟨tfin, _, hall, hinv, hmem⟩ :=
      runGrants_inv hw (e :: rest) [] e.1 initRLState st' hinit hchain hrun
    obtain ⟨hreq, htok, hday⟩ := hinv
    rw [List.nil_append] at hreq htok hday
    have htfinT : tfin ≤ T := by
      rcases hmem with rfl | hmem'
      · exact hT e (List.mem_cons_self e rest)
      · obtain ⟨x, hx, hfx⟩ := List.mem_map.mp hmem'
        exact hfx ▸ hT x hx
    obtain ⟨hb1, hb2, hb3⟩ := runGrants_bounds (e :: rest) initRLState st' (by simp) hrun
    refine ⟨?_, ?_, ?_, hrecord⟩
    · rw [← filter_inWindow_twice (fun t => t) window tfin T htfinT, ← hreq]
      exact le_trans (List.length_filter_le _ _) hb1
    · rw [← filter_inWindow_twice (fun x : ℚ × ℕ => x.1) window tfin T htfinT, ← htok]
      exact le_trans (sum_map_snd_filter_le _ _) hb2
    · rw [← filter_inWindow_twice (fun t => t) 86400 tfin T htfinT, ← hday]
      exact le_trans (List.length_filter_le _ _) hb3

set_option maxRecDepth 4000 in
unseal Rat.mul Rat.add Rat.sub Rat.inv in
/-- Claim C1 witness: the budgets rpm = 2, tpm = 1000, rpd = 10, window 60 s
with two grants of 100 tokens at times 0 and 1, observed at T = 1. -/
theorem claim_C1_witness :
    ((([((0 : ℚ), 100), (1, 100)]).map Prod.fst).filter
        (fun t => inWindow 60 1 t)).length ≤ 2
    ∧ ((([((0 : ℚ), 100), (1, 100)]).filter
        (fun e => inWindow 60 1 e.1)).map Prod.snd).sum ≤ 1000
    ∧ ((([((0 : ℚ), 100), (1, 100)]).map Prod.fst).filter
        (fun t => inWindow 86400 1 t)).length ≤ 10 := by
  have h := claim_C1_rate_limiter 2 1000 10 60 [((0 : ℚ), 100), (1, 100)]
    ⟨[0, 1], [(0, 100), (1, 100)], [0, 1]⟩ 1
    (by decide)
    (by
      rw [List.chain'_cons]
      exact ⟨by decide, List.chain'_singleton _⟩)
    (by decide) (by decide)
  exact ⟨h.1, h.2.1, h.2.2.1⟩
